import Mathlib

/-!
Shallow embedding of the go-flags parsing engine (src/flags/flags.go) and
proofs about it.  Go structs are modelled as lists of fields; reflection
kinds are modelled by the `FieldVal` constructors; the external flag
primitive (Go's standard flag package, out of scope per the spec) is
modelled by its documented interface: a scan oracle yielding either an
error or the list of explicitly set flags in visit order, dispatched
through the flag set's error-handling mode.
-/

namespace Flags

/-- The dynamic value stored in a schema field.  The engine's switches
only recognize the Go kinds bool, int and string; every other kind
(e.g. a struct reached one nesting level down, or a float) is collapsed
to `other` because `Parse` and `CommandFlagSet` ignore those kinds. -/
inductive FieldVal where
  | b (x : Bool)
  | i (x : Int)
  | s (x : String)
  | other
  deriving DecidableEq, Repr

/-- A schema field together with its reflect.StructField metadata:
the field name, the `short` and `usage` struct tags, the current value
(which also carries the reflect kind), and reflect's CanSet result. -/
structure Field where
  name : String
  short : String
  usage : String
  val : FieldVal
  canSet : Bool
  deriving DecidableEq, Repr

/-- A nested-struct field of the root schema (a command group): its field
name, reflect's CanInterface result, and its own fields. -/
structure Group where
  name : String
  canInterface : Bool
  fields : List Field
  deriving DecidableEq, Repr

/-- A top-level field of the root schema: either a non-struct field or a
nested struct (command group). -/
inductive RootEntry where
  | scalar (f : Field)
  | group (g : Group)
  deriving DecidableEq, Repr

/-- The root schema struct, as the ordered list of its top-level fields. -/
abbrev Schema := List RootEntry

/-- ASCII lower-casing of one character. -/
def charLower (c : Char) : Char :=
  if 65 ≤ c.toNat ∧ c.toNat ≤ 90 then Char.ofNat (c.toNat + 32) else c

/-- Models strings.ToLower from the Go standard library (restricted to
ASCII, which covers Go identifiers used as field names). -/
def goToLower (s : String) : String := String.mk (s.data.map charLower)

/-- Models strings.HasPrefix from the Go standard library. -/
def goHasPrefix (s pat : String) : Bool := pat.data.isPrefixOf s.data

/-- IterFields (flags.go lines 160-231), rendered as the list of callback
invocations it performs: each element is the visited field together with
the variadic command-context argument list passed to the callback.
Shallow mode (`recurse = false`) visits the settable non-struct top-level
fields with no command context; deep mode (`recurse = true`) visits, for
each nested-struct field that CanInterface, that struct's settable fields
with exactly the parent's lower-cased name as context.
This is the loop body, per top-level field. -/
def iterEntry (recurse : Bool) : RootEntry → List (Field × List String)
  | .scalar f => if !recurse && f.canSet then [(f, [])] else []
  | .group g =>
    if recurse && g.canInterface then
      g.fields.flatMap fun f => if f.canSet then [(f, [goToLower g.name])] else []
    else []

/-- IterFields (flags.go lines 160-231) as the concatenation of the loop
body's callback invocations over the top-level fields. -/
def IterFields (recurse : Bool) (sch : Schema) : List (Field × List String) :=
  sch.flatMap (iterEntry recurse)

/-- The command-name registry (the package-level `cmds` map) as populated
by a walk of the schema: the lower-cased name of every nested-struct
top-level field (flags.go lines 182-189).  Only membership is ever
consulted, so a list models the map's key set. -/
def cmdsOf (sch : Schema) : List String :=
  sch.filterMap fun e =>
    match e with
    | .group g => some (goToLower g.name)
    | .scalar _ => none

/-- One flag definition registered into a flag-parsing scope: flag name,
the identity of the backing variable it writes to (two definitions with
equal `cell` share one backing variable, as with Go's `&v`), the default
value, and the usage text. -/
structure FlagDef where
  name : String
  cell : Nat
  dflt : FieldVal
  usage : String
  deriving DecidableEq, Repr

/-- Registration state of one flag-parsing scope: a supply of fresh
backing-variable identities and the flag definitions so far. -/
structure FlagRegState where
  nextCell : Nat
  defs : List FlagDef
  deriving DecidableEq, Repr

/-- The registration callback body shared by `Parse` (lines 58-73) and
`CommandFlagSet` (lines 300-315): for a bool/int/string field, allocate
one backing variable (`var v ...`) and register the lower-cased field
name and the `short` tag against it, with zero defaults and the usage
texts from the source; other kinds fall through the switch untouched. -/
def registerField (st : FlagRegState) (f : Field) : FlagRegState :=
  match f.val with
  | .b _ =>
    { nextCell := st.nextCell + 1,
      defs := st.defs ++
        [⟨goToLower f.name, st.nextCell, .b false, f.usage⟩,
         ⟨f.short, st.nextCell, .b false, f.usage ++ " (shorthand)"⟩] }
  | .i _ =>
    { nextCell := st.nextCell + 1,
      defs := st.defs ++
        [⟨goToLower f.name, st.nextCell, .i 0, f.usage⟩,
         ⟨f.short, st.nextCell, .i 0, f.usage ++ " (shorthand)"⟩] }
  | .s _ =>
    { nextCell := st.nextCell + 1,
      defs := st.defs ++
        [⟨goToLower f.name, st.nextCell, .s "", f.usage⟩,
         ⟨f.short, st.nextCell, .s "", f.usage ++ " (shorthand)"⟩] }
  | .other => st

/-- The global registration pass of `Parse` (lines 58-73): fold the
registration callback over the shallow walk. -/
def registerGlobal (sch : Schema) : FlagRegState :=
  (IterFields false sch).foldl (fun st ev => registerField st ev.1) ⟨0, []⟩

/-- Error-handling modes of the external flag primitive (Go stdlib
flag.ErrorHandling; PanicOnError is never referenced by this repository
and is not modelled). -/
inductive ErrorHandling where
  | continueOnError
  | exitOnError
  deriving DecidableEq, Repr

/-- A flag.FlagSet as this repository uses it: its name, its
error-handling mode, and its registered definitions. -/
structure GoFlagSet where
  fsName : String
  errorHandling : ErrorHandling
  reg : FlagRegState
  deriving DecidableEq, Repr

/-- The callback of `CommandFlagSet` (lines 293-316): it reads the first
element of the variadic command list and registers the field only when
that context equals the command being built.  The `[]` branch mirrors the
fact that Go's `currentCmd[0]` would panic there; the IterFields theorems
show deep mode never produces an empty context list. -/
def cfsStep (cmd : String) (st : FlagRegState) (ev : Field × List String) : FlagRegState :=
  match ev.2 with
  | c :: _ => if c = cmd then registerField st ev.1 else st
  | [] => st

/-- CommandFlagSet (flags.go lines 286-319): a fresh flag set named after
the command, with ExitOnError handling, whose definitions come from a
deep walk filtered to the active command's context. -/
def CommandFlagSet (cmd : String) (sch : Schema) : GoFlagSet :=
  { fsName := cmd, errorHandling := .exitOnError,
    reg := (IterFields true sch).foldl (cfsStep cmd) ⟨0, []⟩ }

/-- The scanning loop of IdentifyCommand (flags.go lines 240-263),
threading the `commandIndex` counter and the `commandSeen` feature
exactly as the source does. -/
def identifyCommandAux (cmds : List String) : List String → Nat → Bool → Nat × Bool
  | [], idx, seen => (idx, seen)
  | arg :: rest, idx, seen =>
    if seen then (idx, seen)
    else if goHasPrefix arg "-" then identifyCommandAux cmds rest (idx + 1) seen
    else if cmds.contains arg then identifyCommandAux cmds rest idx true
    else identifyCommandAux cmds rest (idx + 1) seen

/-- IdentifyCommand (flags.go lines 239-270): run the scanning loop; if a
command was seen return the token at the recorded index, else the empty
string.  (`getD` with default "" stands for Go's `args[commandIndex]`;
the index is proved in range whenever `seen` holds.) -/
def IdentifyCommand (cmds : List String) (args : List String) : String :=
  let r := identifyCommandAux cmds args 0 false
  if r.2 then args.getD r.1 "" else ""

/-- The token predicate of the spec's Command Identifier: not flag-shaped
and exactly equal to a registered command name. -/
def pIsCmd (cmds : List String) (arg : String) : Bool :=
  !(goHasPrefix arg "-") && cmds.contains arg

/-- Spec-side rendering of the Command Identifier contract (spec section
4.3): the leftmost token that is not flag-shaped and matches a command
name, or the empty string when there is none. -/
def specIdentifyCommand (cmds args : List String) : String :=
  (args.find? (pIsCmd cmds)).getD ""

/-- CommandFlags (flags.go lines 274-282): scan for the first element
literally equal to `cmd` and return everything strictly after it; an
exhausted scan returns the empty list. -/
def CommandFlags (cmd : String) : List String → List String
  | [] => []
  | v :: rest => if v = cmd then rest else CommandFlags cmd rest

/-- Spec-side rendering of the Argument Partitioner contract (spec
section 4.4): the subsequence strictly after the first occurrence of
`cmd` as a literal element. -/
def specCommandFlags (cmd : String) (args : List String) : List String :=
  (args.dropWhile fun v => v != cmd).tail

/-- One explicitly set flag as yielded by the primitive's Visit: the flag
name and the dynamic value its Getter returns.  Visit only yields flags
that were actually set on the command line, in lexical name order. -/
structure SetFlag where
  name : String
  value : FieldVal
  deriving DecidableEq, Repr

/-- The body of both binder callbacks (flags.go lines 88-106 and
124-151) for one visited set flag: if the flag's name equals the field's
lower-cased name or its `short` tag, switch on the field's kind and
assign the Getter value when its dynamic type matches; otherwise leave
the field alone. -/
def bindStep (f : Field) (fl : SetFlag) : Field :=
  if fl.name == goToLower f.name || fl.name == f.short then
    match f.val, fl.value with
    | .b _, .b x => { f with val := .b x }
    | .i _, .i x => { f with val := .i x }
    | .s _, .s x => { f with val := .s x }
    | _, _ => f
  else f

/-- A binder callback run for one field: fold the Visit sequence of
explicitly set flags through `bindStep` (flag.Visit / cfs.Visit). -/
def bindField (setFlags : List SetFlag) (f : Field) : Field :=
  setFlags.foldl bindStep f

/-- Whether two dynamic values have the same scalar kind (the type
assertion in the binder succeeds exactly when the kinds agree). -/
def sameKind : FieldVal → FieldVal → Bool
  | .b _, .b _ => true
  | .i _, .i _ => true
  | .s _, .s _ => true
  | _, _ => false

/-- Whether a value has one of the three kinds the engine registers. -/
def isScalar : FieldVal → Bool
  | .other => false
  | _ => true

/-- Whether one visited set flag writes into a field: name match (long or
short spelling) together with a successful type assertion. -/
def flagHits (fl : SetFlag) (f : Field) : Bool :=
  (fl.name == goToLower f.name || fl.name == f.short) && sameKind f.val fl.value

/-- The walker's settability guard around the binding callback: only
settable fields are handed to the callback, others stay as they are. -/
def bindFieldIfSet (setFlags : List SetFlag) (f : Field) : Field :=
  if f.canSet then bindField setFlags f else f

/-- The effect of binder pass 1 on one top-level field: a settable
non-struct field goes through the binding callback; nested-struct
fields are not visited by the shallow walk. -/
def bindEntryShallow (setFlags : List SetFlag) : RootEntry → RootEntry
  | .scalar f => .scalar (bindFieldIfSet setFlags f)
  | .group g => .group g

/-- The effect of binder pass 2 on one top-level field: the deep walk
skips top-level non-struct fields and descends one level into each
CanInterface nested-struct field, binding its settable fields. -/
def bindEntryDeep (setFlags : List SetFlag) : RootEntry → RootEntry
  | .scalar f => .scalar f
  | .group g =>
    if g.canInterface then
      .group { g with fields := g.fields.map (bindFieldIfSet setFlags) }
    else .group g

/-- Binder pass 1 of `Parse` (lines 80-108): the shallow walk with the
binding callback, applied to the settable non-struct top-level fields. -/
def bindShallow (setFlags : List SetFlag) (sch : Schema) : Schema :=
  sch.map (bindEntryShallow setFlags)

/-- Binder pass 2 of `Parse` (lines 124-152): the deep walk with the
binding callback, applied to the settable fields of every
CanInterface nested-struct field. -/
def bindDeep (setFlags : List SetFlag) (sch : Schema) : Schema :=
  sch.map (bindEntryDeep setFlags)

/-- Outcome of the external primitive's FlagSet.Parse. -/
inductive FsOutcome where
  | ok (setFlags : List SetFlag)
  | retErr (e : String)
  | exited (code : Nat)
  deriving DecidableEq, Repr

/-- Models the documented error dispatch of Go stdlib flag.FlagSet.Parse
(the external primitive, out of scope per spec section 1): a successful
scan yields the set flags; a failed scan returns the error under
ContinueOnError and terminates the process with exit status 2 under
ExitOnError (the ErrHelp exit-0 special case is not modelled; no claim
concerns help output). -/
def fsParse (mode : ErrorHandling) (scan : Except String (List SetFlag)) : FsOutcome :=
  match scan with
  | .ok l => .ok l
  | .error e =>
    match mode with
    | .continueOnError => .retErr e
    | .exitOnError => .exited 2

/-- Outcome of the package-level flag.Parse() call (line 75). -/
inductive GlobalOutcome where
  | gok (setFlags : List SetFlag) (rest : List String)
  | gexited (code : Nat)
  deriving DecidableEq, Repr

/-- Models the documented behavior of the package-level Go flag.Parse():
it parses against flag.CommandLine, whose handling mode is ExitOnError,
and discards the returned error, so a failed scan terminates the process
with exit status 2 and a successful scan yields the set flags together
with the remaining non-flag arguments (flag.Args()). -/
def flagParseGlobal (scan : Except String (List SetFlag × List String)) : GlobalOutcome :=
  match scan with
  | .ok (l, rest) => .gok l rest
  | .error _ => .gexited 2

/-- The error values of flags.go lines 17-20, plus a verbatim error from
the external primitive. -/
inductive GoError where
  | errNoArgs
  | errWrongType
  | parseErr (msg : String)
  deriving DecidableEq, Repr

/-- What the schema pointer dereferences to: a struct (with its fields)
or anything else (reflect kind other than Struct). -/
inductive RootValue where
  | structRoot (sch : Schema)
  | nonStruct
  deriving DecidableEq, Repr

/-- Observable result of one run of `Parse`: either the function returns
(with its error value, the final schema state, and the global flag
definitions registered during the run) or the process terminated with an
exit status inside the external primitive. -/
inductive RunResult where
  | ret (err : Option GoError) (final : RootValue) (regs : List FlagDef)
  | exited (code : Nat)
  deriving DecidableEq, Repr

/-- Whether a run result is an error value returned to the caller. -/
def isErrorReturn : RunResult → Bool
  | .ret (some _) _ _ => true
  | _ => false

/-- Parse (flags.go lines 22-155), end to end.  `args` is os.Args[1:].
`globalScan` and `cmdScan` are the scan oracles of the external
primitive for the global scope and the command scope: applied to the
token list each scope parses, they yield either a scan error or the
explicitly set flags (and, for the global scope, flag.Args()).  The
control flow follows the source: empty-args check, root-kind check,
global registration, flag.Parse(), binder pass 1, IdentifyCommand on the
raw args, CommandFlags on flag.Args(), CommandFlagSet, cfs.Parse with
the flag set's error-handling mode (the retErr branch mirrors the
source's `return err`), binder pass 2. -/
def ParseModel (root : RootValue) (args : List String)
    (globalScan : List String → Except String (List SetFlag × List String))
    (cmdScan : List String → Except String (List SetFlag)) : RunResult :=
  if args.isEmpty then .ret (some .errNoArgs) root []
  else
    match root with
    | .nonStruct => .ret (some .errWrongType) root []
    | .structRoot sch =>
      let greg := registerGlobal sch
      match flagParseGlobal (globalScan args) with
      | .gexited c => .exited c
      | .gok setFlags rest =>
        let sch1 := bindShallow setFlags sch
        let cmd := IdentifyCommand (cmdsOf sch) args
        let cmdFlags := CommandFlags cmd rest
        let cfs := CommandFlagSet cmd sch1
        match fsParse cfs.errorHandling (cmdScan cmdFlags) with
        | .exited c => .exited c
        | .retErr e => .ret (some (.parseErr e)) (.structRoot sch1) greg.defs
        | .ok setCmdFlags => .ret none (.structRoot (bindDeep setCmdFlags sch1)) greg.defs

/-- The README's example schema: three top-level scalar fields and two
command groups `foo` and `bar`. -/
def exSchema : Schema :=
  [.scalar ⟨"Debug", "d", "enable debug level logs", .b false, true⟩,
   .scalar ⟨"Number", "n", "a number field", .i 0, true⟩,
   .scalar ⟨"Message", "m", "a message field", .s "", true⟩,
   .group ⟨"Foo", true, [⟨"AAA", "a", "does A", .s "", true⟩,
                         ⟨"BBB", "b", "does B", .s "", true⟩]⟩,
   .group ⟨"Bar", true, [⟨"CCC", "c", "does C", .b false, true⟩]⟩]

/-- A schema in which two command groups reuse the same short alias for
fields of different kinds: `Foo.AAA` is a string with short `a`, while
`Bar.CCC` is a bool that also declares short `a`. -/
def clashSchema : Schema :=
  [.group ⟨"Foo", true, [⟨"AAA", "a", "does A", .s "", true⟩]⟩,
   .group ⟨"Bar", true, [⟨"CCC", "a", "does C", .b false, true⟩]⟩]

/-! Helper lemmas about the binder callback. -/

/-- One binder step, rephrased through the hit predicate: a visited set
flag either writes its value into the field or leaves it untouched. -/
theorem bindStep_hits (f : Field) (fl : SetFlag) :
    bindStep f fl = if flagHits fl f then { f with val := fl.value } else f := by
  unfold bindStep flagHits
  cases hn : (fl.name == goToLower f.name || fl.name == f.short) <;>
    cases hfv : f.val <;> cases hflv : fl.value <;>
      simp [sameKind, hfv, hflv]

theorem sameKind_congr {a b : FieldVal} (h : sameKind a b = true) (c : FieldVal) :
    sameKind b c = sameKind a c := by
  cases a <;> cases b <;> cases c <;> simp_all [sameKind]

theorem flagHits_val_congr (f : Field) (v : FieldVal) (h : sameKind f.val v = true)
    (fl' : SetFlag) : flagHits fl' { f with val := v } = flagHits fl' f := by
  simp [flagHits, sameKind_congr h]

theorem record_update_of_meta (f g : Field) (h1 : g.name = f.name) (h2 : g.short = f.short)
    (h3 : g.usage = f.usage) (h4 : g.canSet = f.canSet) : g = { f with val := g.val } := by
  cases f; cases g; simp_all

theorem bindStep_meta (f : Field) (fl : SetFlag) :
    (bindStep f fl).name = f.name ∧ (bindStep f fl).short = f.short ∧
    (bindStep f fl).usage = f.usage ∧ (bindStep f fl).canSet = f.canSet := by
  rw [bindStep_hits]; split <;> simp

theorem flagHits_bindStep (fl' : SetFlag) (f : Field) (fl : SetFlag) :
    flagHits fl' (bindStep f fl) = flagHits fl' f := by
  rw [bindStep_hits]
  split
  · rename_i h
    exact flagHits_val_congr f fl.value (Bool.and_eq_true_iff.mp h).2 fl'
  · rfl

theorem bindField_cons (fl : SetFlag) (l : List SetFlag) (f : Field) :
    bindField (fl :: l) f = bindField l (bindStep f fl) := rfl

theorem bindField_append (l1 l2 : List SetFlag) (f : Field) :
    bindField (l1 ++ l2) f = bindField l2 (bindField l1 f) :=
  List.foldl_append ..

theorem bindField_meta (l : List SetFlag) (f : Field) :
    (bindField l f).name = f.name ∧ (bindField l f).short = f.short ∧
    (bindField l f).usage = f.usage ∧ (bindField l f).canSet = f.canSet := by
  induction l generalizing f with
  | nil => exact ⟨rfl, rfl, rfl, rfl⟩
  | cons fl l ih =>
    rw [bindField_cons]
    obtain ⟨m1, m2, m3, m4⟩ := bindStep_meta f fl
    obtain ⟨i1, i2, i3, i4⟩ := ih (bindStep f fl)
    exact ⟨i1.trans m1, i2.trans m2, i3.trans m3, i4.trans m4⟩

theorem flagHits_bindField (l : List SetFlag) (f : Field) (fl' : SetFlag) :
    flagHits fl' (bindField l f) = flagHits fl' f := by
  induction l generalizing f with
  | nil => rfl
  | cons fl l ih => rw [bindField_cons, ih (bindStep f fl), flagHits_bindStep]

theorem bindField_no_hits (l : List SetFlag) (f : Field)
    (h : ∀ fl ∈ l, flagHits fl f = false) : bindField l f = f := by
  induction l with
  | nil => rfl
  | cons fl l ih =>
    rw [bindField_cons, bindStep_hits, if_neg]
    · exact ih fun fl' h' => h fl' (List.mem_cons_of_mem _ h')
    · rw [h fl (List.mem_cons_self ..)]; simp

theorem bindField_eq_update (l : List SetFlag) (f : Field) :
    bindField l f = { f with val := (bindField l f).val } := by
  obtain ⟨h1, h2, h3, h4⟩ := bindField_meta l f
  exact record_update_of_meta f _ h1 h2 h3 h4

/-- The last matching set flag in the Visit sequence determines the
field's final value. -/
theorem bindField_last (l1 l2 : List SetFlag) (fl : SetFlag) (f : Field)
    (hhit : flagHits fl f = true) (hpost : ∀ fl' ∈ l2, flagHits fl' f = false) :
    bindField (l1 ++ fl :: l2) f = { f with val := fl.value } := by
  have hkind : sameKind f.val fl.value = true := (Bool.and_eq_true_iff.mp hhit).2
  rw [bindField_append, bindField_cons, bindStep_hits, if_pos]
  · have heq : { bindField l1 f with val := fl.value } = { f with val := fl.value } := by
      obtain ⟨h1, h2, h3, h4⟩ := bindField_meta l1 f
      exact record_update_of_meta f _ h1 h2 h3 h4
    rw [heq]
    exact bindField_no_hits l2 _ fun fl' h' =>
      (flagHits_val_congr f fl.value hkind fl').trans (hpost fl' h')
  · rw [flagHits_bindField]; exact hhit
/-! Helper lemmas about the command identifier and the partitioner. -/

theorem identifyCommandAux_seen (cmds l : List String) (idx : Nat) :
    identifyCommandAux cmds l idx true = (idx, true) := by
  cases l <;> simp [identifyCommandAux]

theorem identifyCommandAux_cons (cmds : List String) (a : String) (rest : List String)
    (idx : Nat) :
    identifyCommandAux cmds (a :: rest) idx false =
      if goHasPrefix a "-" then identifyCommandAux cmds rest (idx + 1) false
      else if cmds.contains a then identifyCommandAux cmds rest idx true
      else identifyCommandAux cmds rest (idx + 1) false := rfl

/-- The scanning loop computes the index and presence of the first token
satisfying the command predicate. -/
theorem identifyCommandAux_spec (cmds : List String) (l : List String) (idx : Nat) :
    identifyCommandAux cmds l idx false =
      match l.find? (pIsCmd cmds) with
      | none => (idx + l.length, false)
      | some _ => (idx + l.findIdx (pIsCmd cmds), true) := by
  induction l generalizing idx with
  | nil => simp [identifyCommandAux]
  | cons a rest ih =>
    cases hpre : goHasPrefix a "-" with
    | true =>
      have hp : pIsCmd cmds a = false := by simp [pIsCmd, hpre]
      rw [identifyCommandAux_cons, if_pos hpre]
      rw [ih (idx + 1), List.find?_cons_of_neg _ (by rw [hp]; simp), List.findIdx_cons, hp]
      cases hfind : rest.find? (pIsCmd cmds) <;> simp [hfind] <;> omega
    | false =>
      cases hc : cmds.contains a with
      | true =>
        have hp : pIsCmd cmds a = true := by unfold pIsCmd; rw [hpre, hc]; simp
        rw [identifyCommandAux_cons, if_neg (by rw [hpre]; simp), if_pos hc]
        rw [identifyCommandAux_seen, List.find?_cons_of_pos _ hp, List.findIdx_cons, hp]
        simp
      | false =>
        have hp : pIsCmd cmds a = false := by unfold pIsCmd; rw [hpre, hc]; simp
        rw [identifyCommandAux_cons, if_neg (by rw [hpre]; simp), if_neg (by rw [hc]; simp)]
        rw [ih (idx + 1), List.find?_cons_of_neg _ (by rw [hp]; simp), List.findIdx_cons, hp]
        cases hfind : rest.find? (pIsCmd cmds) <;> simp [hfind] <;> omega

theorem getD_findIdx_eq {α : Type} (q : α → Bool) (d : α) :
    ∀ (l : List α) (a : α), l.find? q = some a → l.getD (l.findIdx q) d = a := by
  intro l
  induction l with
  | nil => intro a h; simp [List.find?] at h
  | cons b r ih =>
    intro a h
    cases hq : q b with
    | true =>
      rw [List.find?_cons_of_pos _ hq] at h
      rw [List.findIdx_cons, hq]
      simpa [List.getD] using h
    | false =>
      rw [List.find?_cons_of_neg _ (by simp [hq])] at h
      rw [List.findIdx_cons, hq]
      simpa [List.getD] using ih a h

theorem commandFlags_eq_spec (cmd : String) (args : List String) :
    CommandFlags cmd args = specCommandFlags cmd args := by
  induction args with
  | nil => rfl
  | cons v rest ih =>
    by_cases h : v = cmd
    · simp [CommandFlags, specCommandFlags, List.dropWhile_cons, h]
    · simp only [CommandFlags, specCommandFlags, List.dropWhile_cons, if_neg h,
        bne_iff_ne, ne_eq, h, not_false_eq_true, if_pos] at ih ⊢
      exact ih

/-! Helper lemmas about the schema walker and flag registration. -/

/-- Every callback invocation of a deep walk comes from a settable field
of a CanInterface nested-struct field, and carries exactly the parent's
lower-cased name as its variadic command context. -/
theorem mem_iterFields_deep (sch : Schema) (ev : Field × List String)
    (h : ev ∈ IterFields true sch) :
    ∃ g, RootEntry.group g ∈ sch ∧ g.canInterface = true ∧
      ev.1 ∈ g.fields ∧ ev.1.canSet = true ∧ ev.2 = [goToLower g.name] := by
  unfold IterFields at h
  rw [List.mem_flatMap] at h
  obtain ⟨e, hmem, hev⟩ := h
  cases e with
  | scalar f => simp [iterEntry] at hev
  | group g =>
    simp only [iterEntry] at hev
    cases hci : g.canInterface with
    | false => rw [hci] at hev; simp at hev
    | true =>
      rw [hci] at hev
      rw [if_pos (show (true && true) = true from rfl)] at hev
      rw [List.mem_flatMap] at hev
      obtain ⟨f, hf, hev2⟩ := hev
      cases hcs : f.canSet with
      | false => rw [hcs] at hev2; simp at hev2
      | true =>
        rw [hcs] at hev2
        rw [if_pos (show true = true from rfl), List.mem_singleton] at hev2
        subst hev2
        exact ⟨g, hmem, hci, hf, hcs, rfl⟩

theorem mem_append_pair {α : Type} {d a b : α} {l : List α} (h : d ∈ l ++ [a, b]) :
    d ∈ l ∨ d = a ∨ d = b := by
  rcases List.mem_append.mp h with h | h
  · exact Or.inl h
  · rcases List.mem_cons.mp h with h | h
    · exact Or.inr (Or.inl h)
    · rcases List.mem_cons.mp h with h | h
      · exact Or.inr (Or.inr h)
      · simp at h

theorem mem_registerField (st : FlagRegState) (f : Field) (d : FlagDef)
    (h : d ∈ (registerField st f).defs) :
    d ∈ st.defs ∨ ((d.name = goToLower f.name ∨ d.name = f.short) ∧ isScalar f.val = true) := by
  unfold registerField at h
  cases hv : f.val with
  | other =>
    rw [hv] at h
    exact Or.inl h
  | b x =>
    rw [hv] at h
    rcases mem_append_pair
        (show d ∈ st.defs ++
          [⟨goToLower f.name, st.nextCell, .b false, f.usage⟩,
           ⟨f.short, st.nextCell, .b false, f.usage ++ " (shorthand)"⟩] from h)
      with h1 | h1 | h1
    · exact Or.inl h1
    · exact Or.inr ⟨Or.inl (by rw [h1]), rfl⟩
    · exact Or.inr ⟨Or.inr (by rw [h1]), rfl⟩
  | i x =>
    rw [hv] at h
    rcases mem_append_pair
        (show d ∈ st.defs ++
          [⟨goToLower f.name, st.nextCell, .i 0, f.usage⟩,
           ⟨f.short, st.nextCell, .i 0, f.usage ++ " (shorthand)"⟩] from h)
      with h1 | h1 | h1
    · exact Or.inl h1
    · exact Or.inr ⟨Or.inl (by rw [h1]), rfl⟩
    · exact Or.inr ⟨Or.inr (by rw [h1]), rfl⟩
  | s x =>
    rw [hv] at h
    rcases mem_append_pair
        (show d ∈ st.defs ++
          [⟨goToLower f.name, st.nextCell, .s "", f.usage⟩,
           ⟨f.short, st.nextCell, .s "", f.usage ++ " (shorthand)"⟩] from h)
      with h1 | h1 | h1
    · exact Or.inl h1
    · exact Or.inr ⟨Or.inl (by rw [h1]), rfl⟩
    · exact Or.inr ⟨Or.inr (by rw [h1]), rfl⟩

theorem mem_foldl_cfsStep (cmd : String) :
    ∀ (evs : List (Field × List String)) (st : FlagRegState) (d : FlagDef),
      d ∈ (evs.foldl (cfsStep cmd) st).defs →
      d ∈ st.defs ∨ ∃ ev ∈ evs, (∃ tl, ev.2 = cmd :: tl) ∧
        (d.name = goToLower ev.1.name ∨ d.name = ev.1.short) ∧ isScalar ev.1.val = true := by
  intro evs
  induction evs with
  | nil => intro st d h; exact Or.inl h
  | cons ev evs ih =>
    intro st d h
    rw [List.foldl_cons] at h
    rcases ih (cfsStep cmd st ev) d h with h' | ⟨ev', hmem, hctx, hname, hscal⟩
    · obtain ⟨f, ctx⟩ := ev
      cases ctx with
      | nil => exact Or.inl h'
      | cons c tl =>
        have h'' : d ∈ (if c = cmd then registerField st f else st).defs := h'
        by_cases hc : c = cmd
        · rw [if_pos hc] at h''
          rcases mem_registerField st f d h'' with h3 | ⟨hname, hscal⟩
          · exact Or.inl h3
          · exact Or.inr ⟨(f, c :: tl), List.mem_cons_self .., ⟨tl, by rw [hc]⟩, hname, hscal⟩
        · rw [if_neg hc] at h''
          exact Or.inl h''
    · exact Or.inr ⟨ev', List.mem_cons_of_mem _ hmem, hctx, hname, hscal⟩
theorem bindShallow_getElem (gset : List SetFlag) (sch : Schema) (i : Nat) :
    (bindShallow gset sch)[i]? = (sch[i]?).map (bindEntryShallow gset) :=
  List.getElem?_map ..

theorem bindDeep_getElem (cset : List SetFlag) (sch : Schema) (i : Nat) :
    (bindDeep cset sch)[i]? = (sch[i]?).map (bindEntryDeep cset) :=
  List.getElem?_map ..

theorem flagHits_false_of_names {fl : SetFlag} {f : Field}
    (h1 : fl.name ≠ goToLower f.name) (h2 : fl.name ≠ f.short) : flagHits fl f = false := by
  have e1 : (fl.name == goToLower f.name) = false := beq_eq_false_iff_ne.mpr h1
  have e2 : (fl.name == f.short) = false := beq_eq_false_iff_ne.mpr h2
  simp [flagHits, e1, e2]

theorem bindFieldIfSet_of_no_hits (l : List SetFlag) (f : Field)
    (h : ∀ fl ∈ l, flagHits fl f = false) : bindFieldIfSet l f = f := by
  unfold bindFieldIfSet
  cases hcs : f.canSet with
  | false => rw [if_neg (by simp)]
  | true => rw [if_pos rfl]; exact bindField_no_hits l f h

/-! The claims. -/

/-- C1: for every finite set of command names and every argument
sequence, IdentifyCommand returns the leftmost token that does not begin
with a dash and is exactly (case-sensitively) equal to some command
name, and the empty string when no such token exists; in particular,
with commands foo and bar and arguments -d foo -a x it returns foo. -/
theorem identifyCommand_leftmost_match :
    (∀ (cmds args : List String), IdentifyCommand cmds args = specIdentifyCommand cmds args) ∧
    IdentifyCommand ["foo", "bar"] ["-d", "foo", "-a", "x"] = "foo" := by
  constructor
  · intro cmds args
    simp only [IdentifyCommand, specIdentifyCommand]
    rw [identifyCommandAux_spec]
    cases hf : args.find? (pIsCmd cmds) with
    | none => simp
    | some a => simpa using getD_findIdx_eq (pIsCmd cmds) "" args a hf
  · decide

/-- C4 counterexample: with an empty command string and an argument
vector containing the empty string as an element, CommandFlags does not
return an empty sequence, contrary to the claim's "empty whenever the
command string is empty" clause. -/
theorem commandFlags_empty_command_cex :
    CommandFlags "" ["", "x"] = ["x"] ∧ CommandFlags "" ["", "x"] ≠ [] := by decide

/-- C4 (amended): CommandFlags returns the subsequence strictly after
the first element literally equal to the command string, and an empty
sequence whenever the command string does not occur as an element (in
particular when it is empty and the empty string is not an element);
CommandFlags "foo" ["-d","foo","-a","x"] = ["-a","x"] and
CommandFlags "missing" args = []. -/
theorem commandFlags_after_first_occurrence :
    (∀ (cmd : String) (args : List String), CommandFlags cmd args = specCommandFlags cmd args) ∧
    (∀ (cmd : String) (args : List String), cmd ∉ args → CommandFlags cmd args = []) ∧
    CommandFlags "foo" ["-d", "foo", "-a", "x"] = ["-a", "x"] ∧
    CommandFlags "missing" ["-d", "foo", "-a", "x"] = [] := by
  refine ⟨commandFlags_eq_spec, ?_, by decide, by decide⟩
  intro cmd args h
  rw [commandFlags_eq_spec]
  unfold specCommandFlags
  rw [List.dropWhile_eq_nil_iff.mpr ?_]
  · rfl
  · intro x hx
    exact bne_iff_ne.mpr fun e => h (e ▸ hx)

theorem commandFlags_after_first_occurrence_witness :
    CommandFlags "zzz" ["-d", "foo"] = [] :=
  commandFlags_after_first_occurrence.2.1 "zzz" ["-d", "foo"] (by decide)

/-- C3: for every scalar field, the long flag (lower-cased field name)
and the short flag (the field's short metadata) are registered against
the same backing storage (one shared cell), and in any single Visit
sequence in which exactly one of the two spellings was set with a given
value the bound field value is the same whichever spelling it was. -/
theorem longShort_shared_storage :
    (∀ (st : FlagRegState) (f : Field), isScalar f.val = true →
      ∃ c dflt, (registerField st f).defs = st.defs ++
        [⟨goToLower f.name, c, dflt, f.usage⟩,
         ⟨f.short, c, dflt, f.usage ++ " (shorthand)"⟩]) ∧
    (∀ (f : Field) (v : FieldVal) (l1 l2 : List SetFlag),
      sameKind f.val v = true →
      (∀ fl ∈ l1 ++ l2, flagHits fl f = false) →
      bindField (l1 ++ ⟨goToLower f.name, v⟩ :: l2) f = { f with val := v } ∧
      bindField (l1 ++ ⟨f.short, v⟩ :: l2) f = { f with val := v }) := by
  constructor
  · intro st f hscal
    cases hv : f.val with
    | other => rw [hv] at hscal; simp [isScalar] at hscal
    | b x => exact ⟨st.nextCell, .b false, by unfold registerField; rw [hv]⟩
    | i x => exact ⟨st.nextCell, .i 0, by unfold registerField; rw [hv]⟩
    | s x => exact ⟨st.nextCell, .s "", by unfold registerField; rw [hv]⟩
  · intro f v l1 l2 hkind hno
    have hl2 : ∀ fl ∈ l2, flagHits fl f = false :=
      fun fl h => hno fl (List.mem_append.mpr (Or.inr h))
    exact ⟨bindField_last l1 l2 ⟨goToLower f.name, v⟩ f (by simp [flagHits, hkind]) hl2,
           bindField_last l1 l2 ⟨f.short, v⟩ f (by simp [flagHits, hkind]) hl2⟩

theorem longShort_shared_storage_witness :
    (∃ c dflt, (registerField ⟨0, []⟩ ⟨"Debug", "d", "u", .b false, true⟩).defs =
      ([] : List FlagDef) ++
        [⟨goToLower "Debug", c, dflt, "u"⟩, ⟨"d", c, dflt, "u" ++ " (shorthand)"⟩]) ∧
    (bindField ([] ++ ⟨goToLower "Debug", FieldVal.b true⟩ :: []) ⟨"Debug", "d", "u", .b false, true⟩ =
        { name := "Debug", short := "d", usage := "u", val := .b true, canSet := true } ∧
     bindField ([] ++ ⟨"d", FieldVal.b true⟩ :: []) ⟨"Debug", "d", "u", .b false, true⟩ =
        { name := "Debug", short := "d", usage := "u", val := .b true, canSet := true }) :=
  ⟨longShort_shared_storage.1 ⟨0, []⟩ ⟨"Debug", "d", "u", .b false, true⟩ (by decide),
   longShort_shared_storage.2 ⟨"Debug", "d", "u", .b false, true⟩ (.b true) [] [] (by decide)
     (by simp)⟩
/-- C5: on a successful run the final schema is exactly the result of the
two binder passes, and every field (top-level, or inside a command group)
for which neither the lower-cased field name nor the short alias occurs
among the explicitly set flags of the run keeps its previous value (in
particular its zero value when the schema started zeroed); the binder
passes assign only from explicitly set flags and never write scope
defaults. -/
theorem untouched_fields_keep_values :
    (∀ (sch : Schema) (a : String) (args : List String) (gset : List SetFlag)
        (rest : List String) (cset : List SetFlag),
      ParseModel (.structRoot sch) (a :: args)
          (fun _ => .ok (gset, rest)) (fun _ => .ok cset) =
        .ret none (.structRoot (bindDeep cset (bindShallow gset sch)))
          (registerGlobal sch).defs) ∧
    (∀ (gset cset : List SetFlag) (sch : Schema) (i : Nat) (f : Field),
      sch[i]? = some (.scalar f) →
      (∀ fl ∈ gset ++ cset, fl.name ≠ goToLower f.name ∧ fl.name ≠ f.short) →
      (bindDeep cset (bindShallow gset sch))[i]? = some (.scalar f)) ∧
    (∀ (gset cset : List SetFlag) (sch : Schema) (i : Nat) (g : Group) (j : Nat) (f : Field),
      sch[i]? = some (.group g) → g.fields[j]? = some f →
      (∀ fl ∈ gset ++ cset, fl.name ≠ goToLower f.name ∧ fl.name ≠ f.short) →
      ∃ g', (bindDeep cset (bindShallow gset sch))[i]? = some (.group g') ∧
        g'.fields[j]? = some f) := by
  refine ⟨fun _ _ _ _ _ _ => rfl, ?_, ?_⟩
  · intro gset cset sch i f hi hno
    have hg : ∀ fl ∈ gset, flagHits fl f = false := fun fl h =>
      flagHits_false_of_names (hno fl (List.mem_append.mpr (Or.inl h))).1
        (hno fl (List.mem_append.mpr (Or.inl h))).2
    rw [bindDeep_getElem, bindShallow_getElem, hi]
    show some (bindEntryDeep cset (bindEntryShallow gset (.scalar f))) = some (.scalar f)
    rw [show bindEntryShallow gset (.scalar f) = .scalar (bindFieldIfSet gset f) from rfl,
      bindFieldIfSet_of_no_hits gset f hg]
    rfl
  · intro gset cset sch i g j f hi hj hno
    have hc : ∀ fl ∈ cset, flagHits fl f = false := fun fl h =>
      flagHits_false_of_names (hno fl (List.mem_append.mpr (Or.inr h))).1
        (hno fl (List.mem_append.mpr (Or.inr h))).2
    cases hci : g.canInterface with
    | false =>
      refine ⟨g, ?_, hj⟩
      rw [bindDeep_getElem, bindShallow_getElem, hi]
      show some (bindEntryDeep cset (bindEntryShallow gset (.group g))) = some (.group g)
      rw [show bindEntryShallow gset (.group g) = RootEntry.group g from rfl]
      simp [bindEntryDeep, hci]
    | true =>
      refine ⟨{ g with fields := g.fields.map (bindFieldIfSet cset) }, ?_, ?_⟩
      · rw [bindDeep_getElem, bindShallow_getElem, hi]
        show some (bindEntryDeep cset (bindEntryShallow gset (.group g))) =
          some (.group { g with fields := g.fields.map (bindFieldIfSet cset) })
        rw [show bindEntryShallow gset (.group g) = RootEntry.group g from rfl]
        simp [bindEntryDeep, hci]
      · show (g.fields.map (bindFieldIfSet cset))[j]? = some f
        rw [List.getElem?_map, hj]
        show some (bindFieldIfSet cset f) = some f
        rw [bindFieldIfSet_of_no_hits cset f hc]

theorem untouched_fields_keep_values_witness :
    (bindDeep [] (bindShallow [⟨"debug", FieldVal.b true⟩] exSchema))[1]? =
      some (.scalar ⟨"Number", "n", "a number field", FieldVal.i 0, true⟩) :=
  untouched_fields_keep_values.2.1 [⟨"debug", FieldVal.b true⟩] [] exSchema 1
    ⟨"Number", "n", "a number field", FieldVal.i 0, true⟩ (by decide) (by decide)

/-- C9 counterexample: with the command scope's set flag a bound to the
string x (as set through the active command foo), the field Bar.CCC has
short metadata equal to the flag's name a, yet it is not written,
because its declared type bool does not match the flag value's dynamic
type string: the second binder pass leaves it at false. -/
theorem bindDeep_kind_mismatch_cex :
    "a" = (⟨"CCC", "a", "does C", FieldVal.b false, true⟩ : Field).short ∧
    bindDeep [⟨"a", FieldVal.s "x"⟩] clashSchema =
      [.group ⟨"Foo", true, [⟨"AAA", "a", "does A", FieldVal.s "x", true⟩]⟩,
       .group ⟨"Bar", true, [⟨"CCC", "a", "does C", FieldVal.b false, true⟩]⟩] := by
  decide

/-- C9 (amended): in the second binder pass matching is by flag name
only, not by owning command: a flag explicitly set in the command scope
is written into every settable scalar field of every CanInterface
command group - including groups other than the active command - whose
lower-cased field name or short metadata equals the flag's name AND
whose declared type matches the flag value's dynamic type (a
name-matching field of a different type is skipped by the failed type
assertion); the field ends with that value provided no later-visited set
flag also hits it. -/
theorem commandBind_matches_by_name_kind (l1 l2 : List SetFlag) (n : String) (v : FieldVal)
    (sch : Schema) (g : Group) (f : Field) (i j : Nat)
    (hi : sch[i]? = some (.group g)) (hci : g.canInterface = true)
    (hj : g.fields[j]? = some f) (hcs : f.canSet = true)
    (hname : n = goToLower f.name ∨ n = f.short) (hkind : sameKind f.val v = true)
    (hpost : ∀ fl ∈ l2, flagHits fl f = false) :
    ∃ g', (bindDeep (l1 ++ ⟨n, v⟩ :: l2) sch)[i]? = some (.group g') ∧
      g'.fields[j]? = some { f with val := v } := by
  have hhit : flagHits ⟨n, v⟩ f = true := by
    rcases hname with h | h <;> subst h <;> simp [flagHits, hkind]
  refine ⟨{ g with fields := g.fields.map (bindFieldIfSet (l1 ++ ⟨n, v⟩ :: l2)) }, ?_, ?_⟩
  · rw [bindDeep_getElem, hi]
    simp [bindEntryDeep, hci]
  · show (g.fields.map (bindFieldIfSet (l1 ++ ⟨n, v⟩ :: l2)))[j]? = some { f with val := v }
    rw [List.getElem?_map, hj]
    show some (bindFieldIfSet (l1 ++ ⟨n, v⟩ :: l2) f) = some { f with val := v }
    unfold bindFieldIfSet
    rw [if_pos hcs, bindField_last l1 l2 ⟨n, v⟩ f hhit hpost]

theorem commandBind_matches_by_name_kind_witness :
    ∃ g', (bindDeep ([] ++ ⟨"a", FieldVal.s "x"⟩ :: []) clashSchema)[0]? = some (.group g') ∧
      g'.fields[0]? = some ⟨"AAA", "a", "does A", FieldVal.s "x", true⟩ :=
  commandBind_matches_by_name_kind [] [] "a" (FieldVal.s "x") clashSchema
    ⟨"Foo", true, [⟨"AAA", "a", "does A", FieldVal.s "", true⟩]⟩
    ⟨"AAA", "a", "does A", FieldVal.s "", true⟩ 0 0 (by decide) rfl (by decide) rfl
    (Or.inr rfl) (by decide) (by simp)

/-- C8: every flag definition in the scope built by CommandFlagSet comes
from a settable scalar field of a CanInterface command group whose
lower-cased name equals the given command; fields of other command
groups, though visited by the deep walk, are never registered. -/
theorem commandFlagSet_only_active_command (cmd : String) (sch : Schema) (d : FlagDef)
    (h : d ∈ (CommandFlagSet cmd sch).reg.defs) :
    ∃ g f, RootEntry.group g ∈ sch ∧ g.canInterface = true ∧ goToLower g.name = cmd ∧
      f ∈ g.fields ∧ f.canSet = true ∧ isScalar f.val = true ∧
      (d.name = goToLower f.name ∨ d.name = f.short) := by
  have h' : d ∈ ((IterFields true sch).foldl (cfsStep cmd) ⟨0, []⟩).defs := h
  rcases mem_foldl_cfsStep cmd (IterFields true sch) ⟨0, []⟩ d h' with
    h0 | ⟨ev, hmem, ⟨tl, hctx⟩, hname, hscal⟩
  · simp at h0
  · obtain ⟨g, hg, hci, hf, hcs, hev2⟩ := mem_iterFields_deep sch ev hmem
    rw [hev2] at hctx
    have hcmd : goToLower g.name = cmd := ((List.cons.injEq _ _ _ _).mp hctx).1
    exact ⟨g, ev.1, hg, hci, hcmd, hf, hcs, hscal, hname⟩

theorem commandFlagSet_only_active_command_witness :
    ∃ g f, RootEntry.group g ∈ exSchema ∧ g.canInterface = true ∧ goToLower g.name = "foo" ∧
      f ∈ g.fields ∧ f.canSet = true ∧ isScalar f.val = true ∧
      ((⟨"aaa", 0, FieldVal.s "", "does A"⟩ : FlagDef).name = goToLower f.name ∨
       (⟨"aaa", 0, FieldVal.s "", "does A"⟩ : FlagDef).name = f.short) :=
  commandFlagSet_only_active_command "foo" exSchema ⟨"aaa", 0, FieldVal.s "", "does A"⟩
    (by decide)

/-- C10: in deep mode IterFields invokes the callback only for fields
located inside a nested-struct field and always passes exactly one
command-context argument, so CommandFlagSet's callback, which reads the
first element of the variadic list, never reads from an empty list. -/
theorem iterFields_deep_context (sch : Schema) (ev : Field × List String)
    (h : ev ∈ IterFields true sch) :
    (∃ g, RootEntry.group g ∈ sch ∧ g.canInterface = true ∧ ev.1 ∈ g.fields ∧
      ev.2 = [goToLower g.name]) ∧ ev.2.length = 1 := by
  obtain ⟨g, hg, hci, hf, _, hev2⟩ := mem_iterFields_deep sch ev h
  exact ⟨⟨g, hg, hci, hf, hev2⟩, by rw [hev2]; rfl⟩

theorem iterFields_deep_context_witness :
    (∃ g, RootEntry.group g ∈ exSchema ∧ g.canInterface = true ∧
      (⟨"AAA", "a", "does A", FieldVal.s "", true⟩ : Field) ∈ g.fields ∧
      (["foo"] : List String) = [goToLower g.name]) ∧ (["foo"] : List String).length = 1 :=
  iterFields_deep_context exSchema (⟨"AAA", "a", "does A", FieldVal.s "", true⟩, ["foo"])
    (by decide)

/-- C2 counterexample: an unknown flag token in the command segment makes
the command scope's parse terminate the process with exit status 2 (the
scope is built with ExitOnError), so Parse does not return that error to
the caller. -/
theorem underlying_error_not_returned_cex :
    ParseModel (.structRoot exSchema) ["-debug", "foo", "-zzz"]
        (fun _ => .ok ([⟨"debug", FieldVal.b true⟩], ["foo", "-zzz"]))
        (fun _ => .error "flag provided but not defined: -zzz") = .exited 2 ∧
    isErrorReturn (ParseModel (.structRoot exSchema) ["-debug", "foo", "-zzz"]
        (fun _ => .ok ([⟨"debug", FieldVal.b true⟩], ["foo", "-zzz"]))
        (fun _ => .error "flag provided but not defined: -zzz")) = false :=
  ⟨rfl, rfl⟩

/-- C2 (amended): an error raised by the underlying flag-parsing
primitive during either the global or the command parsing pass aborts
the remainder of the run, but by terminating the process with exit
status 2 rather than by returning the error value from Parse: both
scopes use the primitive's exit-on-error mode, so Parse's error-return
path after the command-scope parse is unreachable for scan failures. -/
theorem underlying_errors_abort_run_by_exit :
    (∀ (sch : Schema) (a : String) (args : List String) (e : String)
        (cscan : List String → Except String (List SetFlag)),
      ParseModel (.structRoot sch) (a :: args) (fun _ => .error e) cscan = .exited 2) ∧
    (∀ (sch : Schema) (a : String) (args : List String) (gset : List SetFlag)
        (rest : List String) (e : String),
      ParseModel (.structRoot sch) (a :: args)
          (fun _ => .ok (gset, rest)) (fun _ => .error e) = .exited 2) :=
  ⟨fun _ _ _ _ _ => rfl, fun _ _ _ _ _ _ => rfl⟩

/-- C6: with an empty argument vector Parse returns the ErrNoArgs error
immediately, with no flag registered and the schema value unchanged. -/
theorem parse_empty_args_returns_errNoArgs :
    ∀ (root : RootValue)
      (gscan : List String → Except String (List SetFlag × List String))
      (cscan : List String → Except String (List SetFlag)),
      ParseModel root [] gscan cscan = .ret (some .errNoArgs) root [] :=
  fun _ _ _ => rfl

/-- C7: with a non-empty argument vector and a root value that is not a
struct, Parse returns the ErrWrongType error before any registration or
parsing, mutating nothing. -/
theorem parse_nonstruct_returns_errWrongType :
    ∀ (a : String) (args : List String)
      (gscan : List String → Except String (List SetFlag × List String))
      (cscan : List String → Except String (List SetFlag)),
      ParseModel .nonStruct (a :: args) gscan cscan = .ret (some .errWrongType) .nonStruct [] :=
  fun _ _ _ _ => rfl
end Flags
